import Mathlib

/-!
Shallow embedding of the attendance/leave core of the `employee_project`
Django backend (apps `attendance` and `employees`), covering:

* `Attendance.working_hours` (src/attendance/models.py, lines 43-61)
* `LeaveRequest.duration_days` (src/attendance/models.py, lines 105-114)
* `AttendanceDetailSerializer.validate` (src/attendance/serializers.py, lines 32-73)
* `LeaveRequestDetailSerializer.validate` (src/attendance/serializers.py, lines 105-151)
* `LeaveRequestViewSet.approve` / `.reject` (src/attendance/views.py, lines 223-279)
* `AttendanceViewSet.summary` (src/attendance/views.py, lines 114-179)
* `AttendanceAnalyticsView.get` monthly-overview and department blocks
  (src/attendance/views.py, lines 281-389)

Python `datetime.date` values are modelled as (year, month, day) triples in
the proleptic Gregorian calendar; Python compares dates lexicographically on
these components and `date - timedelta(days=k)` is the k-fold calendar
predecessor, which is how both are modelled here.  Times of day are seconds
since midnight.  Python floats are modelled as rationals.
-/

namespace EmployeeProject

/-! ### Calendar model -/

structure Date where
  year : Int
  month : Nat
  day : Nat
deriving DecidableEq, Repr

/-- Proleptic Gregorian leap-year rule (as in Python `calendar.isleap`). -/
def isLeap (y : Int) : Bool :=
  (y % 4 == 0 && y % 100 != 0) || y % 400 == 0

/-- Number of days in a month (as in Python `calendar.monthrange`). -/
def daysInMonth (y : Int) (m : Nat) : Nat :=
  if m = 2 then (if isLeap y then 29 else 28)
  else if m = 4 ∨ m = 6 ∨ m = 9 ∨ m = 11 then 30
  else 31

/-- A calendar-valid date. -/
def Date.Valid (d : Date) : Prop :=
  1 ≤ d.month ∧ d.month ≤ 12 ∧ 1 ≤ d.day ∧ d.day ≤ daysInMonth d.year d.month

instance : DecidablePred Date.Valid := fun d => by
  unfold Date.Valid; infer_instance

/-- Python `date` ordering: lexicographic on (year, month, day). -/
def dateLe (a b : Date) : Prop :=
  a.year < b.year ∨
    (a.year = b.year ∧ (a.month < b.month ∨ (a.month = b.month ∧ a.day ≤ b.day)))

/-- Strict Python `date` ordering. -/
def dateLt (a b : Date) : Prop :=
  a.year < b.year ∨
    (a.year = b.year ∧ (a.month < b.month ∨ (a.month = b.month ∧ a.day < b.day)))

instance : ∀ a b, Decidable (dateLe a b) := fun a b => by
  unfold dateLe; infer_instance

instance : ∀ a b, Decidable (dateLt a b) := fun a b => by
  unfold dateLt; infer_instance

/-- Calendar predecessor: `d - timedelta(days=1)`. -/
def predDate (d : Date) : Date :=
  if 1 < d.day then ⟨d.year, d.month, d.day - 1⟩
  else if 1 < d.month then ⟨d.year, d.month - 1, daysInMonth d.year (d.month - 1)⟩
  else ⟨d.year - 1, 12, 31⟩

/-- `d - timedelta(days=k)`. -/
def subDays (d : Date) : Nat → Date
  | 0 => d
  | k + 1 => predDate (subDays d k)

/-- Python `calendar.month_name[m]` (empty string off-range, as in Python). -/
def monthName : Nat → String
  | 1 => "January"
  | 2 => "February"
  | 3 => "March"
  | 4 => "April"
  | 5 => "May"
  | 6 => "June"
  | 7 => "July"
  | 8 => "August"
  | 9 => "September"
  | 10 => "October"
  | 11 => "November"
  | 12 => "December"
  | _ => ""

/-- Rata-die count of a civil date (days-from-civil algorithm); used only to
model Python's `(end_date - start_date).days` difference of dates. -/
def toRD (d : Date) : Int :=
  let y : Int := if d.month ≤ 2 then d.year - 1 else d.year
  let era : Int := Int.fdiv y 400
  let yoe : Int := y - era * 400
  let mp : Int := if d.month ≤ 2 then (d.month : Int) + 9 else (d.month : Int) - 3
  let doy : Int := Int.fdiv (153 * mp + 2) 5 + (d.day : Int) - 1
  let doe : Int := yoe * 365 + Int.fdiv yoe 4 - Int.fdiv yoe 100 + doy
  era * 146097 + doe

/-! ### Data model -/

/-- `Attendance.STATUS_CHOICES` (src/attendance/models.py, lines 15-23). -/
inductive AttStatus
  | present | absent | late | halfDay | sickLeave | vacation | holiday
deriving DecidableEq, Repr

/-- `LeaveRequest.STATUS_CHOICES` (src/attendance/models.py, lines 81-85). -/
inductive LeaveStatus
  | pending | approved | rejected
deriving DecidableEq, Repr

/-- The slice of `employees.models.Employee` the attendance core reads:
primary key, the `is_active` flag and the department name
(`employee.department.name`). -/
structure Employee where
  id : Nat
  isActive : Bool
  deptName : String
deriving DecidableEq, Repr

/-- An `Attendance` row / serializer candidate.  Times are seconds since
midnight; `none` models a NULL time field. -/
structure AttRecord where
  employee : Employee
  date : Date
  status : AttStatus
  checkIn : Option Nat
  checkOut : Option Nat
deriving DecidableEq, Repr

/-- A `LeaveRequest` row. -/
structure LeaveRequest where
  id : Nat
  employeeId : Nat
  startDate : Date
  endDate : Date
  status : LeaveStatus
  approvedBy : String
deriving DecidableEq, Repr

/-- A leave-request serializer candidate; `instanceId` is the primary key of
the request being updated (`self.instance`), if any. -/
structure LeaveCandidate where
  employee : Employee
  startDate : Date
  endDate : Date
  instanceId : Option Nat
deriving DecidableEq, Repr

/-- The five validation failure kinds of the spec's error taxonomy; each
corresponds to one `ValidationError` / 400-response site in the source. -/
inductive VError
  | inactiveEmployee
  | excessiveDuration
  | invalidDateRange
  | overlappingLeave
  | invalidStateTransition
deriving DecidableEq, Repr

/-! ### Attendance model logic -/

/-- `Attendance.working_hours` (src/attendance/models.py, lines 43-61):
combine both times with `self.date`, shift checkout by one day when the
checkout datetime is strictly before the check-in datetime (both datetimes
share `self.date`, so that comparison is a clock-time comparison), and
return the difference in hours; 0 if either time is missing. -/
def workingHours (r : AttRecord) : ℚ :=
  match r.checkIn, r.checkOut with
  | some ci, some co =>
      let coShift : Int := if co < ci then (co : Int) + 86400 else (co : Int)
      ((coShift - (ci : Int) : Int) : ℚ) / 3600
  | _, _ => 0

/-- `LeaveRequest.duration_days` (src/attendance/models.py, lines 105-114):
`(end_date - start_date).days + 1` (both dates are non-nullable columns). -/
def durationDays (lr : LeaveRequest) : Int :=
  (toRD lr.endDate - toRD lr.startDate) + 1

/-- `AttendanceDetailSerializer.validate` (src/attendance/serializers.py,
lines 32-73).  Note that in the source the 16-hour ceiling is only tested
inside the `check_out <= check_in` branch, and the datetime comparison
inside that branch (both datetimes built from the same `date`) repeats the
clock-time comparison. -/
def validateAttendance (r : AttRecord) : Except VError AttRecord :=
  if r.employee.isActive = false then .error .inactiveEmployee
  else
    match r.checkIn, r.checkOut with
    | some ci, some co =>
        if co ≤ ci then
          let coDT : Int := if (co : Int) ≤ (ci : Int) then (co : Int) + 86400 else (co : Int)
          if 16 * 3600 < coDT - (ci : Int) then .error .excessiveDuration
          else .ok r
        else .ok r
    | _, _ => .ok r

/-- `LeaveRequestDetailSerializer.validate` (src/attendance/serializers.py,
lines 105-151), with `existing` standing for the `LeaveRequest.objects`
table the overlap query filters. -/
def validateLeave (existing : List LeaveRequest) (c : LeaveCandidate) :
    Except VError LeaveCandidate :=
  if c.employee.isActive = false then .error .inactiveEmployee
  else if dateLt c.endDate c.startDate then .error .invalidDateRange
  else
    let overlapping := existing.filter (fun (a : LeaveRequest) =>
      a.employeeId == c.employee.id &&
      (a.status == .pending || a.status == .approved) &&
      decide (dateLe a.startDate c.endDate) &&
      decide (dateLe c.startDate a.endDate))
    let overlapping := match c.instanceId with
      | some pk => overlapping.filter (fun (a : LeaveRequest) => a.id != pk)
      | none => overlapping
    if overlapping.isEmpty then .ok c else .error .overlappingLeave

/-- `LeaveRequestViewSet.approve` (src/attendance/views.py, lines 223-250):
only a PENDING request may be approved; on success the status becomes
APPROVED and `approved_by` is the supplied name, defaulting to `"System"`. -/
def approveLeave (lr : LeaveRequest) (approvedBy : Option String) :
    Except VError LeaveRequest :=
  if lr.status ≠ .pending then .error .invalidStateTransition
  else .ok { lr with status := .approved, approvedBy := approvedBy.getD "System" }

/-- `LeaveRequestViewSet.reject` (src/attendance/views.py, lines 252-279). -/
def rejectLeave (lr : LeaveRequest) (approvedBy : Option String) :
    Except VError LeaveRequest :=
  if lr.status ≠ .pending then .error .invalidStateTransition
  else .ok { lr with status := .rejected, approvedBy := approvedBy.getD "System" }

/-! ### Rounding

Python's `round(x, 2)` rounds half to even; exact halves at the second
decimal are resolved towards the even hundredth. -/

def roundHalfEven (q : ℚ) : Int :=
  let f : Int := ⌊q⌋
  if q - f < 1 / 2 then f
  else if (1 : ℚ) / 2 < q - f then f + 1
  else if f % 2 = 0 then f else f + 1

def round2 (q : ℚ) : ℚ := (roundHalfEven (q * 100) : ℚ) / 100

/-! ### Attendance summary -/

structure SummaryStats where
  totalDays : Nat
  presentDays : Nat
  absentDays : Nat
  lateDays : Nat
  attendanceRate : ℚ
  averageWorkingHours : ℚ
deriving DecidableEq, Repr

/-- The statistics block of `AttendanceViewSet.summary`
(src/attendance/views.py, lines 146-179), applied to the already-filtered
record set. -/
def summary (records : List AttRecord) : SummaryStats :=
  let totalDays := records.length
  let presentDays := (records.filter (fun r => r.status == .present || r.status == .late)).length
  let absentDays := (records.filter (fun r => r.status == .absent)).length
  let lateDays := (records.filter (fun r => r.status == .late)).length
  let attendanceRate : ℚ :=
    if 0 < totalDays then (presentDays : ℚ) / (totalDays : ℚ) * 100 else 0
  let workingRecords := records.filter (fun r => r.checkIn.isSome && r.checkOut.isSome)
  let totalWorkingHours : ℚ := (workingRecords.map workingHours).sum
  let averageWorkingHours : ℚ :=
    if 0 < workingRecords.length then totalWorkingHours / (workingRecords.length : ℚ) else 0
  ⟨totalDays, presentDays, absentDays, lateDays,
   round2 attendanceRate, round2 averageWorkingHours⟩

/-! ### Association lists (Python `dict` with string keys, insertion order) -/

def alFind {α : Type} : List (String × α) → String → Option α
  | [], _ => none
  | (k, v) :: rest, n => if k = n then some v else alFind rest n

def alSet {α : Type} : List (String × α) → String → α → List (String × α)
  | [], n, v => [(n, v)]
  | (k, w) :: rest, n, v =>
      if k = n then (k, v) :: rest else (k, w) :: alSet rest n v

/-! ### Analytics: monthly overview -/

structure MonthCounts where
  present : Nat
  absent : Nat
  late : Nat
deriving DecidableEq, Repr

def MonthCounts.zero : MonthCounts := ⟨0, 0, 0⟩

def bumpWith (m : List (String × MonthCounts)) (n : String)
    (f : MonthCounts → MonthCounts) : List (String × MonthCounts) :=
  alSet m n (f ((alFind m n).getD .zero))

/-- One iteration of the record loop of the monthly overview
(src/attendance/views.py, lines 304-311): `defaultdict` bucket keyed by the
record's month name, bumped only for PRESENT/ABSENT/LATE. -/
def monthStep (m : List (String × MonthCounts)) (r : AttRecord) :
    List (String × MonthCounts) :=
  match r.status with
  | .present => bumpWith m (monthName r.date.month) (fun c => { c with present := c.present + 1 })
  | .absent => bumpWith m (monthName r.date.month) (fun c => { c with absent := c.absent + 1 })
  | .late => bumpWith m (monthName r.date.month) (fun c => { c with late := c.late + 1 })
  | _ => m

/-- `current_date.replace(day=1)` followed by the month increment of the
ensure loop (src/attendance/views.py, lines 319-324). -/
def nextMonthFirst (d : Date) : Date :=
  if d.month = 12 then ⟨d.year + 1, 1, 1⟩ else ⟨d.year, d.month + 1, 1⟩

/-- The month names visited by the ensure loop (src/attendance/views.py,
lines 314-324), fuelled since the source loop is a `while`. -/
def monthWalk : Date → Date → Nat → List String
  | _, _, 0 => []
  | c, e, fuel + 1 =>
      if dateLe c e then monthName c.month :: monthWalk (nextMonthFirst c) e fuel
      else []

structure MonthEntry where
  month : String
  present : Nat
  absent : Nat
  late : Nat
deriving DecidableEq, Repr

/-- The monthly-overview block of `AttendanceAnalyticsView.get`
(src/attendance/views.py, lines 296-341): bucket the records of the
trailing 180 days by month name, ensure every month name in the window has
a (possibly zero) bucket, sample the buckets at `today - 30*i` days for
i = 0..5, and reverse so the oldest sample comes first. -/
def monthlyOverview (today : Date) (records : List AttRecord) : List MonthEntry :=
  let startD := subDays today 180
  let filtered := records.filter (fun r => decide (dateLe startD r.date))
  let data0 := filtered.foldl monthStep []
  let names := monthWalk startD today 1000
  let data1 := names.foldl
    (fun m n => if (alFind m n).isSome then m else m ++ [(n, MonthCounts.zero)]) data0
  let sel := (List.range 6).foldl (fun acc i =>
    let n := monthName (subDays today (30 * i)).month
    match alFind data1 n with
    | some c => acc ++ [⟨n, c.present, c.absent, c.late⟩]
    | none => acc) []
  sel.reverse

/-! ### Analytics: department-wise attendance -/

/-- One iteration of the department loop (src/attendance/views.py,
lines 352-359): per department, (total, present-or-late) counters. -/
def deptStep (m : List (String × (Nat × Nat))) (r : AttRecord) :
    List (String × (Nat × Nat)) :=
  let dn := r.employee.deptName
  let s := (alFind m dn).getD (0, 0)
  alSet m dn (s.1 + 1, s.2 + (if r.status == .present || r.status == .late then 1 else 0))

/-- The department-wise attendance block (src/attendance/views.py,
lines 350-369). -/
def departmentWise (records : List AttRecord) : List (String × ℚ) :=
  let stats := records.foldl deptStep []
  stats.map (fun p =>
    (p.1, round2 (if 0 < p.2.1 then ((p.2.2 : ℚ) / (p.2.1 : ℚ)) * 100 else 0)))

/-! ### Claims C1, C4, C6, C7, C9, C10 -/

/-- An active employee's same-day attendance candidate with check-in 01:00
and check-out 23:00 — a 22-hour shift with no overnight rollover. -/
def c1Candidate : AttRecord :=
  ⟨⟨1, true, "Engineering"⟩, ⟨2024, 6, 10⟩, .present, some 3600, some 82800⟩

/-- C1: the spec (and the serializer's own docstring) demand
`ExcessiveDurationError` whenever the overnight-adjusted duration exceeds
16 hours, including same-day pairs such as check-in 01:00 / check-out 23:00;
the code, however, runs the 16-hour test only inside its
`check_out <= check_in` branch, so this 22-hour same-day candidate is
accepted by `validate`. -/
theorem claim_C1 :
    validateAttendance c1Candidate = .ok c1Candidate ∧
    workingHours c1Candidate = 22 ∧
    16 < workingHours c1Candidate := by
  refine ⟨rfl, ?_, ?_⟩ <;> norm_num [c1Candidate, workingHours]

/-- C4: `working_hours` is the elapsed time in hours from check-in to
check-out, with the checkout shifted forward by 24 hours exactly when its
clock time is strictly earlier than the check-in's, and 0 when either time
is absent. -/
theorem claim_C4 (r : AttRecord) :
    (∀ ci co, r.checkIn = some ci → r.checkOut = some co →
        workingHours r =
          ((co : ℚ) + (if co < ci then 24 * 3600 else 0) - (ci : ℚ)) / 3600) ∧
    (r.checkIn = none ∨ r.checkOut = none → workingHours r = 0) := by
  constructor
  · intro ci co hci hco
    simp only [workingHours, hci, hco]
    split_ifs with h <;> push_cast <;> ring
  · rintro (h | h)
    · simp [workingHours, h]
    · cases hci : r.checkIn <;> simp [workingHours, h, hci]

/-- Witness for C4: check-in 22:00 and check-out 06:00 give exactly 8.0
hours. -/
theorem claim_C4_witness :
    workingHours ⟨⟨1, true, "Engineering"⟩, ⟨2024, 6, 10⟩, .present,
        some (22 * 3600), some (6 * 3600)⟩ =
      (((6 * 3600 : Nat) : ℚ) + (if (6 * 3600 : Nat) < 22 * 3600 then 24 * 3600 else 0)
        - (((22 * 3600 : Nat) : ℚ))) / 3600 ∧
    workingHours ⟨⟨1, true, "Engineering"⟩, ⟨2024, 6, 10⟩, .present,
        some (22 * 3600), some (6 * 3600)⟩ = 8 :=
  ⟨(claim_C4 _).1 _ _ rfl rfl, by norm_num [workingHours]⟩

/-- C6: approving or rejecting succeeds exactly from PENDING, setting the
status and recording the approver name (placeholder `"System"` when none is
given); any non-PENDING request — including one just approved — fails with
`InvalidStateTransitionError`. -/
theorem claim_C6 (lr : LeaveRequest) (name : Option String) :
    (lr.status = .pending →
        approveLeave lr name =
          .ok { lr with status := .approved, approvedBy := name.getD "System" } ∧
        rejectLeave lr name =
          .ok { lr with status := .rejected, approvedBy := name.getD "System" } ∧
        approveLeave lr none = .ok { lr with status := .approved, approvedBy := "System" }) ∧
    (lr.status ≠ .pending →
        approveLeave lr name = .error .invalidStateTransition ∧
        rejectLeave lr name = .error .invalidStateTransition) ∧
    (∀ r, approveLeave lr name = .ok r → ∀ name2,
        approveLeave r name2 = .error .invalidStateTransition ∧
        rejectLeave r name2 = .error .invalidStateTransition) := by
  refine ⟨?_, ?_, ?_⟩
  · intro h
    refine ⟨?_, ?_, ?_⟩ <;> simp [approveLeave, rejectLeave, h]
  · intro h
    constructor <;> simp [approveLeave, rejectLeave, h]
  · intro r hr name2
    have hst : r.status = .approved := by
      by_cases h : lr.status = .pending
      · simp [approveLeave, h] at hr
        rw [← hr]
      · simp [approveLeave, h] at hr
    constructor <;> simp [approveLeave, rejectLeave, hst]

/-- Witness for C6: a concrete PENDING request is approved with the given
approver; an already-APPROVED request cannot be approved again. -/
theorem claim_C6_witness :
    approveLeave ⟨7, 1, ⟨2024, 3, 1⟩, ⟨2024, 3, 5⟩, .pending, ""⟩ (some "Alice") =
      .ok ⟨7, 1, ⟨2024, 3, 1⟩, ⟨2024, 3, 5⟩, .approved, "Alice"⟩ ∧
    approveLeave ⟨7, 1, ⟨2024, 3, 1⟩, ⟨2024, 3, 5⟩, .approved, "Alice"⟩ (some "Bob") =
      .error .invalidStateTransition :=
  ⟨((claim_C6 ⟨7, 1, ⟨2024, 3, 1⟩, ⟨2024, 3, 5⟩, .pending, ""⟩ (some "Alice")).1 rfl).1,
   (((claim_C6 ⟨7, 1, ⟨2024, 3, 1⟩, ⟨2024, 3, 5⟩, .approved, "Alice"⟩ (some "Bob")).2.1
      (by decide)).1)⟩

/-- C7: when check-in and check-out are present and exactly equal, the
serializer's `check_out <= check_in` branch fires, the (redundant) datetime
comparison shifts the checkout by a full day, and the 24-hour duration
trips the 16-hour ceiling — while `working_hours` on the same record is 0,
since its day-shift needs a strictly earlier checkout. -/
theorem claim_C7 (e : Employee) (d : Date) (st : AttStatus) (t : Nat)
    (h : e.isActive = true) :
    validateAttendance ⟨e, d, st, some t, some t⟩ = .error .excessiveDuration ∧
    workingHours ⟨e, d, st, some t, some t⟩ = 0 := by
  constructor
  · simp [validateAttendance, h]
  · simp [workingHours]

/-- Witness for C7 at check-in = check-out = 09:00. -/
theorem claim_C7_witness :
    validateAttendance ⟨⟨1, true, "Engineering"⟩, ⟨2024, 6, 10⟩, .present,
        some (9 * 3600), some (9 * 3600)⟩ = .error .excessiveDuration ∧
    workingHours ⟨⟨1, true, "Engineering"⟩, ⟨2024, 6, 10⟩, .present,
        some (9 * 3600), some (9 * 3600)⟩ = 0 :=
  claim_C7 ⟨1, true, "Engineering"⟩ ⟨2024, 6, 10⟩ .present (9 * 3600) rfl

/-- C9: both validators fail with `InactiveEmployeeError` exactly on an
inactive employee — regardless of every other field, i.e. before any other
rule — and an active employee never triggers that error. -/
theorem claim_C9 (r : AttRecord) (existing : List LeaveRequest) (c : LeaveCandidate) :
    (r.employee.isActive = false → validateAttendance r = .error .inactiveEmployee) ∧
    (r.employee.isActive = true → validateAttendance r ≠ .error .inactiveEmployee) ∧
    (c.employee.isActive = false → validateLeave existing c = .error .inactiveEmployee) ∧
    (c.employee.isActive = true → validateLeave existing c ≠ .error .inactiveEmployee) := by
  refine ⟨?_, ?_, ?_, ?_⟩ <;> intro h
  · simp [validateAttendance, h]
  · cases hci : r.checkIn <;> cases hco : r.checkOut <;>
      simp [validateAttendance, h, hci, hco] <;> split_ifs <;> simp
  · simp [validateLeave, h]
  · simp only [validateLeave, h]
    split_ifs <;> simp_all

/-- Witness for C9: an inactive employee's attendance candidate is rejected
as inactive; an active employee's identical candidate is not. -/
theorem claim_C9_witness :
    validateAttendance ⟨⟨1, false, "Engineering"⟩, ⟨2024, 6, 10⟩, .present, none, none⟩ =
      .error .inactiveEmployee ∧
    validateAttendance ⟨⟨1, true, "Engineering"⟩, ⟨2024, 6, 10⟩, .present, none, none⟩ ≠
      .error .inactiveEmployee ∧
    validateLeave [] ⟨⟨1, false, "Engineering"⟩, ⟨2024, 3, 1⟩, ⟨2024, 3, 5⟩, none⟩ =
      .error .inactiveEmployee :=
  ⟨(claim_C9 ⟨⟨1, false, "Engineering"⟩, ⟨2024, 6, 10⟩, .present, none, none⟩ []
      ⟨⟨1, false, "Engineering"⟩, ⟨2024, 3, 1⟩, ⟨2024, 3, 5⟩, none⟩).1 rfl,
   (claim_C9 ⟨⟨1, true, "Engineering"⟩, ⟨2024, 6, 10⟩, .present, none, none⟩ []
      ⟨⟨1, false, "Engineering"⟩, ⟨2024, 3, 1⟩, ⟨2024, 3, 5⟩, none⟩).2.1 rfl,
   (claim_C9 ⟨⟨1, false, "Engineering"⟩, ⟨2024, 6, 10⟩, .present, none, none⟩ []
      ⟨⟨1, false, "Engineering"⟩, ⟨2024, 3, 1⟩, ⟨2024, 3, 5⟩, none⟩).2.2.1 rfl⟩

/-- C10: for an active employee the leave validator fails with
`InvalidDateRangeError` exactly when the end date is strictly before the
start date; an equal-dates request passes that check and any equal-dates
request has a duration of exactly 1 day. -/
theorem claim_C10 (existing : List LeaveRequest) (c : LeaveCandidate)
    (hact : c.employee.isActive = true) :
    (validateLeave existing c = .error .invalidDateRange ↔ dateLt c.endDate c.startDate) ∧
    (c.endDate = c.startDate → validateLeave existing c ≠ .error .invalidDateRange) ∧
    (∀ lr : LeaveRequest, lr.startDate = lr.endDate → durationDays lr = 1) := by
  have hiff : validateLeave existing c = .error .invalidDateRange ↔
      dateLt c.endDate c.startDate := by
    simp only [validateLeave, hact]
    split_ifs with h0 h1 h2 <;> simp_all
  refine ⟨hiff, ?_, ?_⟩
  · intro he
    rw [Ne, hiff]
    unfold dateLt
    rw [he]
    omega
  · intro lr h
    simp [durationDays, h]

/-- Witness for C10: end 2024-03-04 before start 2024-03-05 is rejected;
start = end = 2024-03-05 is not rejected for its range and lasts 1 day. -/
theorem claim_C10_witness :
    (validateLeave [] ⟨⟨1, true, "Engineering"⟩, ⟨2024, 3, 5⟩, ⟨2024, 3, 4⟩, none⟩ =
        .error .invalidDateRange ↔
      dateLt (⟨2024, 3, 4⟩ : Date) ⟨2024, 3, 5⟩) ∧
    validateLeave [] ⟨⟨1, true, "Engineering"⟩, ⟨2024, 3, 5⟩, ⟨2024, 3, 5⟩, none⟩ ≠
      .error .invalidDateRange ∧
    durationDays ⟨7, 1, ⟨2024, 3, 5⟩, ⟨2024, 3, 5⟩, .pending, ""⟩ = 1 :=
  ⟨(claim_C10 [] ⟨⟨1, true, "Engineering"⟩, ⟨2024, 3, 5⟩, ⟨2024, 3, 4⟩, none⟩ rfl).1,
   (claim_C10 [] ⟨⟨1, true, "Engineering"⟩, ⟨2024, 3, 5⟩, ⟨2024, 3, 5⟩, none⟩ rfl).2.1 rfl,
   (claim_C10 [] ⟨⟨1, true, "Engineering"⟩, ⟨2024, 3, 5⟩, ⟨2024, 3, 5⟩, none⟩ rfl).2.2
     ⟨7, 1, ⟨2024, 3, 5⟩, ⟨2024, 3, 5⟩, .pending, ""⟩ rfl⟩

/-! ### Claim C3: leave-overlap detection -/

/-- The result of the overlap stage is the overlap error exactly when the
computed conflict list is non-empty. -/
lemma overlapStage_iff (c : LeaveCandidate) (L : List LeaveRequest) :
    (if L.isEmpty then (Except.ok c : Except VError LeaveCandidate)
     else .error .overlappingLeave) = .error .overlappingLeave ↔ ∃ a, a ∈ L := by
  split_ifs with h
  · rw [List.isEmpty_iff] at h
    subst h
    simp
  · rw [List.isEmpty_iff] at h
    constructor
    · intro _
      rcases L with _ | ⟨a, L⟩
      · exact absurd rfl h
      · exact ⟨a, List.mem_cons_self a L⟩
    · intro _
      rfl

/-- C3: for an active employee and an ordered date range, leave validation
fails with `OverlappingLeaveError` iff some other request of the same
employee, with status PENDING or APPROVED and not the request being
updated, satisfies the inclusive interval-overlap test
`start ≤ candidate.end ∧ end ≥ candidate.start`. -/
theorem claim_C3 (existing : List LeaveRequest) (c : LeaveCandidate)
    (hact : c.employee.isActive = true) (hrange : ¬ dateLt c.endDate c.startDate) :
    validateLeave existing c = .error .overlappingLeave ↔
      ∃ a ∈ existing, a.employeeId = c.employee.id ∧
        (a.status = .pending ∨ a.status = .approved) ∧
        dateLe a.startDate c.endDate ∧ dateLe c.startDate a.endDate ∧
        c.instanceId ≠ some a.id := by
  simp only [validateLeave, hact]
  rw [if_neg (by simp), if_neg hrange]
  cases hinst : c.instanceId with
  | none =>
      rw [overlapStage_iff]
      constructor
      · rintro ⟨a, ha⟩
        rw [List.mem_filter] at ha
        obtain ⟨hmem, hpred⟩ := ha
        simp only [Bool.and_eq_true, beq_iff_eq, Bool.or_eq_true, decide_eq_true_eq] at hpred
        exact ⟨a, hmem, hpred.1.1.1, hpred.1.1.2, hpred.1.2, hpred.2, by simp⟩
      · rintro ⟨a, hmem, h1, h2, h3, h4, _⟩
        refine ⟨a, List.mem_filter.mpr ⟨hmem, ?_⟩⟩
        rcases h2 with h2 | h2 <;> simp [h1, h2, h3, h4]
  | some pk =>
      rw [overlapStage_iff]
      constructor
      · rintro ⟨a, ha⟩
        rw [List.mem_filter] at ha
        obtain ⟨ha, hne⟩ := ha
        rw [List.mem_filter] at ha
        obtain ⟨hmem, hpred⟩ := ha
        simp only [Bool.and_eq_true, beq_iff_eq, Bool.or_eq_true, decide_eq_true_eq] at hpred
        simp only [bne_iff_ne, ne_eq] at hne
        refine ⟨a, hmem, hpred.1.1.1, hpred.1.1.2, hpred.1.2, hpred.2, ?_⟩
        simp only [ne_eq, Option.some.injEq]
        omega
      · rintro ⟨a, hmem, h1, h2, h3, h4, h5⟩
        refine ⟨a, List.mem_filter.mpr ⟨List.mem_filter.mpr ⟨hmem, ?_⟩, ?_⟩⟩
        · rcases h2 with h2 | h2 <;> simp [h1, h2, h3, h4]
        · simp only [ne_eq, Option.some.injEq] at h5
          simp only [bne_iff_ne, ne_eq]
          omega

/-- Witness for C3, the spec's own example: A = [2024-03-01, 2024-03-05]
APPROVED blocks candidate B = [2024-03-04, 2024-03-10]. -/
theorem claim_C3_witness :
    validateLeave [⟨1, 1, ⟨2024, 3, 1⟩, ⟨2024, 3, 5⟩, .approved, "System"⟩]
        ⟨⟨1, true, "Engineering"⟩, ⟨2024, 3, 4⟩, ⟨2024, 3, 10⟩, none⟩ =
      .error .overlappingLeave :=
  (claim_C3 [⟨1, 1, ⟨2024, 3, 1⟩, ⟨2024, 3, 5⟩, .approved, "System"⟩]
      ⟨⟨1, true, "Engineering"⟩, ⟨2024, 3, 4⟩, ⟨2024, 3, 10⟩, none⟩ rfl
      (by unfold dateLt; simp)).mpr
    ⟨⟨1, 1, ⟨2024, 3, 1⟩, ⟨2024, 3, 5⟩, .approved, "System"⟩, by simp, rfl, Or.inr rfl,
      by unfold dateLe; simp, by unfold dateLe; simp, by simp⟩

/-! ### Claim C5: the attendance summary aggregator -/

/-- Closed form of `summary` in terms of list counts. -/
lemma summary_spec (records : List AttRecord) :
    summary records =
      { totalDays := records.length,
        presentDays := records.countP (fun r => r.status == .present || r.status == .late),
        absentDays := records.countP (fun r => r.status == .absent),
        lateDays := records.countP (fun r => r.status == .late),
        attendanceRate :=
          if records.length = 0 then 0 else
            round2 ((records.countP (fun r => r.status == .present || r.status == .late) : ℚ) /
              (records.length : ℚ) * 100),
        averageWorkingHours :=
          if (records.filter (fun r => r.checkIn.isSome && r.checkOut.isSome)).length = 0 then 0
          else round2
            (((records.filter (fun r => r.checkIn.isSome && r.checkOut.isSome)).map
                workingHours).sum /
              ((records.filter (fun r => r.checkIn.isSome && r.checkOut.isSome)).length : ℚ)) } := by
  have h0 : round2 0 = 0 := by norm_num [round2, roundHalfEven]
  unfold summary
  simp only [List.countP_eq_length_filter, SummaryStats.mk.injEq, true_and, and_true]
  refine ⟨?_, ?_⟩
  · split_ifs with h1 h2 <;> first | rfl | exact h0 | omega
  · split_ifs with h1 h2 <;> first | rfl | exact h0 | omega

/-- The spec's end-to-end scenario: 20 PRESENT, 2 ABSENT and 3 LATE records
in one month. -/
def juneRecords : List AttRecord :=
  List.replicate 20 ⟨⟨1, true, "Engineering"⟩, ⟨2024, 6, 1⟩, .present, none, none⟩ ++
  List.replicate 2 ⟨⟨1, true, "Engineering"⟩, ⟨2024, 6, 2⟩, .absent, none, none⟩ ++
  List.replicate 3 ⟨⟨1, true, "Engineering"⟩, ⟨2024, 6, 3⟩, .late, none, none⟩

/-- C5: the summary counts records, counts PRESENT-or-LATE as present,
ABSENT as absent, LATE as late, computes the rate as present/total×100
(0 on an empty set) and the average working hours over the records with
both times (0 when there are none), rounding both to 2 decimal places; on
the 20/2/3 scenario it yields total 25, rate 92.00, absent 2. -/
theorem claim_C5 (records : List AttRecord) :
    (summary records).totalDays = records.length ∧
    (summary records).presentDays =
      records.countP (fun r => r.status == .present || r.status == .late) ∧
    (summary records).absentDays = records.countP (fun r => r.status == .absent) ∧
    (summary records).lateDays = records.countP (fun r => r.status == .late) ∧
    (summary records).attendanceRate =
      (if records.length = 0 then 0 else
        round2 ((records.countP (fun r => r.status == .present || r.status == .late) : ℚ) /
          (records.length : ℚ) * 100)) ∧
    (summary records).averageWorkingHours =
      (if (records.filter (fun r => r.checkIn.isSome && r.checkOut.isSome)).length = 0 then 0
       else round2
        (((records.filter (fun r => r.checkIn.isSome && r.checkOut.isSome)).map
            workingHours).sum /
          ((records.filter (fun r => r.checkIn.isSome && r.checkOut.isSome)).length : ℚ))) ∧
    summary juneRecords =
      { totalDays := 25, presentDays := 23, absentDays := 2, lateDays := 3,
        attendanceRate := 92, averageWorkingHours := 0 } := by
  refine ⟨?_, ?_, ?_, ?_, ?_, ?_, ?_⟩
  · rw [summary_spec]
  · rw [summary_spec]
  · rw [summary_spec]
  · rw [summary_spec]
  · rw [summary_spec]
  · rw [summary_spec]
  · rw [summary_spec]
    have h1 : juneRecords.length = 25 := by decide
    have h2 : juneRecords.countP (fun r => r.status == .present || r.status == .late) = 23 := by
      decide
    have h3 : juneRecords.countP (fun r => r.status == .absent) = 2 := by decide
    have h4 : juneRecords.countP (fun r => r.status == .late) = 3 := by decide
    have h5 : (juneRecords.filter (fun r => r.checkIn.isSome && r.checkOut.isSome)).length = 0 := by
      decide
    rw [h1, h2, h3, h4, h5]
    simp only [SummaryStats.mk.injEq]
    norm_num [round2, roundHalfEven]

/-! ### Association-list lemmas -/

lemma alFind_alSet {α : Type} (m : List (String × α)) (k n : String) (v : α) :
    alFind (alSet m k v) n = if k = n then some v else alFind m n := by
  induction m with
  | nil =>
      simp only [alSet, alFind]
  | cons p rest ih =>
      obtain ⟨a, w⟩ := p
      by_cases h1 : a = k
      · subst h1
        simp only [alSet, if_pos rfl, alFind]
        split_ifs <;> rfl
      · simp only [alSet, if_neg h1, alFind, ih]
        split_ifs <;> simp_all

lemma alFind_append_single {α : Type} (m : List (String × α)) (k n : String) (v : α) :
    alFind (m ++ [(k, v)]) n =
      match alFind m n with
      | some w => some w
      | none => if k = n then some v else none := by
  induction m with
  | nil => simp [alFind]
  | cons p rest ih =>
      obtain ⟨a, w⟩ := p
      simp only [List.cons_append, alFind]
      by_cases h : a = n
      · simp [h]
      · rw [if_neg h, if_neg h]
        exact ih

lemma alFind_eq_none {α : Type} (m : List (String × α)) (n : String) :
    alFind m n = none ↔ n ∉ m.map Prod.fst := by
  induction m with
  | nil => simp [alFind]
  | cons p rest ih =>
      obtain ⟨a, w⟩ := p
      simp only [alFind, List.map_cons, List.mem_cons]
      split_ifs with h <;> simp_all [eq_comm]

lemma alSet_keys {α : Type} (m : List (String × α)) (k : String) (v : α) :
    (alSet m k v).map Prod.fst =
      if (alFind m k).isSome then m.map Prod.fst else m.map Prod.fst ++ [k] := by
  induction m with
  | nil => simp [alSet, alFind]
  | cons p rest ih =>
      obtain ⟨a, w⟩ := p
      by_cases h1 : a = k
      · subst h1
        simp [alSet, alFind]
      · simp only [alSet, if_neg h1, List.map_cons, alFind, ih]
        cases hf : alFind rest k <;> simp [hf]

lemma alSet_keys_nodup {α : Type} (m : List (String × α)) (k : String) (v : α)
    (h : (m.map Prod.fst).Nodup) : ((alSet m k v).map Prod.fst).Nodup := by
  rw [alSet_keys]
  split_ifs with hf
  · exact h
  · have hnone : alFind m k = none := by
      cases hfk : alFind m k
      · rfl
      · rw [hfk] at hf
        simp at hf
    have hk : k ∉ m.map Prod.fst := (alFind_eq_none m k).mp hnone
    simp [List.nodup_append, h, hk]

lemma mem_iff_alFind {α : Type} (m : List (String × α))
    (h : (m.map Prod.fst).Nodup) (n : String) (v : α) :
    (n, v) ∈ m ↔ alFind m n = some v := by
  induction m with
  | nil => simp [alFind]
  | cons p rest ih =>
      obtain ⟨a, w⟩ := p
      simp only [List.map_cons, List.nodup_cons] at h
      obtain ⟨ha, hrest⟩ := h
      simp only [List.mem_cons, alFind, Prod.mk.injEq]
      split_ifs with he
      · subst he
        constructor
        · rintro (⟨-, hv⟩ | hmem)
          · rw [hv]
          · exact absurd (List.mem_map_of_mem Prod.fst hmem) ha
        · intro hw
          exact Or.inl ⟨rfl, (Option.some.injEq _ _ ▸ hw).symm⟩
      · rw [← ih hrest]
        constructor
        · rintro (⟨hn, -⟩ | hmem)
          · exact absurd hn.symm he
          · exact hmem
        · exact Or.inr

/-! ### Claim C8: department-wise attendance rates -/

lemma deptFold_find (rs : List AttRecord) (m : List (String × (Nat × Nat))) (n : String) :
    alFind (rs.foldl deptStep m) n =
      match alFind m n with
      | some s =>
          some (s.1 + rs.countP (fun r => r.employee.deptName == n),
                s.2 + rs.countP (fun r => r.employee.deptName == n &&
                        (r.status == .present || r.status == .late)))
      | none =>
          if rs.any (fun r => r.employee.deptName == n) then
            some (rs.countP (fun r => r.employee.deptName == n),
                  rs.countP (fun r => r.employee.deptName == n &&
                    (r.status == .present || r.status == .late)))
          else none := by
  induction rs generalizing m with
  | nil => cases h : alFind m n <;> simp [h]
  | cons r rs ih =>
      rw [List.foldl_cons, ih]
      have hstep : alFind (deptStep m r) n =
          if r.employee.deptName = n then
            some (((alFind m r.employee.deptName).getD (0, 0)).1 + 1,
                  ((alFind m r.employee.deptName).getD (0, 0)).2 +
                    (if r.status == .present || r.status == .late then 1 else 0))
          else alFind m n := by
        simp only [deptStep, alFind_alSet]
      by_cases hdn : r.employee.deptName = n
      · cases hfm : alFind m n with
        | some s =>
            rw [hstep, if_pos hdn, hdn, hfm]
            simp only [Option.getD_some, List.countP_cons, List.any_cons, hdn,
              beq_self_eq_true, Bool.true_and, Bool.true_or, if_true]
            split_ifs <;> simp_all <;> omega
        | none =>
            rw [hstep, if_pos hdn, hdn, hfm]
            simp only [Option.getD_none, List.countP_cons, List.any_cons, hdn,
              beq_self_eq_true, Bool.true_and, Bool.true_or, if_true, zero_add]
            split_ifs <;> simp_all <;> omega
      · have hbeq : (r.employee.deptName == n) = false := by
          simpa using hdn
        rw [hstep, if_neg hdn]
        cases hfm : alFind m n <;>
          simp [hfm, List.countP_cons, List.any_cons, hbeq]

lemma deptFold_keys_nodup (rs : List AttRecord) (m : List (String × (Nat × Nat)))
    (h : (m.map Prod.fst).Nodup) :
    (((rs.foldl deptStep m)).map Prod.fst).Nodup := by
  induction rs generalizing m with
  | nil => exact h
  | cons r rs ih =>
      rw [List.foldl_cons]
      exact ih _ (alSet_keys_nodup _ _ _ h)

/-- C8: the department-wise block maps a department name to an entry exactly
when some record of the set belongs to it (departments with zero records
are omitted), and every entry's rate is the percentage of that
department's present-or-late records among its records, rounded to two
decimal places. -/
theorem claim_C8 (records : List AttRecord) (d : String) :
    ((∃ q, (d, q) ∈ departmentWise records) ↔ ∃ r ∈ records, r.employee.deptName = d) ∧
    (∀ q, (d, q) ∈ departmentWise records →
        q = round2 (((records.countP (fun r => r.employee.deptName == d &&
              (r.status == .present || r.status == .late))) : ℚ) /
            ((records.countP (fun r => r.employee.deptName == d)) : ℚ) * 100)) := by
  have hfind : ∀ n, alFind (records.foldl deptStep ([] : List (String × (Nat × Nat)))) n =
      if records.any (fun r => r.employee.deptName == n) then
        some (records.countP (fun r => r.employee.deptName == n),
              records.countP (fun r => r.employee.deptName == n &&
                (r.status == .present || r.status == .late)))
      else none := by
    intro n
    rw [deptFold_find]
    simp [alFind]
  have hnodup := deptFold_keys_nodup records [] (by simp)
  have hany : (records.any (fun r => r.employee.deptName == d) = true) ↔
      ∃ r ∈ records, r.employee.deptName = d := by
    simp [List.any_eq_true]
  constructor
  · constructor
    · rintro ⟨q, hq⟩
      unfold departmentWise at hq
      rw [List.mem_map] at hq
      obtain ⟨⟨n, s1, s2⟩, hmem, heq⟩ := hq
      simp only [Prod.mk.injEq] at heq
      obtain ⟨hn, -⟩ := heq
      subst n
      have hf := (mem_iff_alFind _ hnodup _ _).mp hmem
      rw [hfind] at hf
      by_cases hc : records.any (fun r => r.employee.deptName == d) = true
      · exact hany.mp hc
      · rw [if_neg hc] at hf
        exact absurd hf (by simp)
    · intro hex
      have hc := hany.mpr hex
      have hf := hfind d
      rw [if_pos hc] at hf
      have hmem := (mem_iff_alFind _ hnodup d _).mpr hf
      exact ⟨_, List.mem_map_of_mem
        (fun p => (p.1, round2 (if 0 < p.2.1 then ((p.2.2 : ℚ) / (p.2.1 : ℚ)) * 100 else 0)))
        hmem⟩
  · intro q hq
    unfold departmentWise at hq
    rw [List.mem_map] at hq
    obtain ⟨⟨n, s1, s2⟩, hmem, heq⟩ := hq
    simp only [Prod.mk.injEq] at heq
    obtain ⟨hn, hqv⟩ := heq
    subst n
    have hf := (mem_iff_alFind _ hnodup _ _).mp hmem
    rw [hfind] at hf
    by_cases hc : records.any (fun r => r.employee.deptName == d) = true
    · rw [if_pos hc, Option.some.injEq, Prod.mk.injEq] at hf
      obtain ⟨h1, h2⟩ := hf
      obtain ⟨r0, hr0, hd0⟩ := hany.mp hc
      have hT : 0 < records.countP (fun r => r.employee.deptName == d) :=
        List.countP_pos_iff.mpr ⟨r0, hr0, by simp [hd0]⟩
      rw [← hqv, ← h1, ← h2, if_pos hT]
    · rw [if_neg hc] at hf
      exact absurd hf (by simp)

/-- Witness for C8: one Engineering PRESENT record yields an Engineering
entry, and every entry's rate obeys the counting formula (here 100%). -/
theorem claim_C8_witness :
    (∃ q, ("Engineering", q) ∈
        departmentWise [⟨⟨1, true, "Engineering"⟩, ⟨2024, 6, 1⟩, .present, none, none⟩]) ∧
    (100 : ℚ) = round2
        ((([⟨⟨1, true, "Engineering"⟩, ⟨2024, 6, 1⟩, .present, none, none⟩] :
              List AttRecord).countP
            (fun r => r.employee.deptName == "Engineering" &&
              (r.status == .present || r.status == .late)) : ℚ) /
          (([⟨⟨1, true, "Engineering"⟩, ⟨2024, 6, 1⟩, .present, none, none⟩] :
              List AttRecord).countP
            (fun r => r.employee.deptName == "Engineering") : ℚ) * 100) :=
  ⟨(claim_C8 [⟨⟨1, true, "Engineering"⟩, ⟨2024, 6, 1⟩, .present, none, none⟩]
      "Engineering").1.mpr ⟨_, List.mem_cons_self _ _, rfl⟩,
   (claim_C8 [⟨⟨1, true, "Engineering"⟩, ⟨2024, 6, 1⟩, .present, none, none⟩]
      "Engineering").2 100
    (by norm_num [departmentWise, deptStep, alFind, alSet, round2, roundHalfEven])⟩

/-! ### Calendar lemmas for the monthly overview -/

lemma daysInMonth_pos (y : Int) (m : Nat) : 1 ≤ daysInMonth y m := by
  unfold daysInMonth
  split_ifs <;> omega

lemma dateLe_refl (d : Date) : dateLe d d := by
  unfold dateLe
  omega

lemma dateLt_le {a b : Date} (h : dateLt a b) : dateLe a b := by
  unfold dateLt at h
  unfold dateLe
  omega

lemma dateLe_trans {a b c : Date} (h1 : dateLe a b) (h2 : dateLe b c) : dateLe a c := by
  unfold dateLe at *
  omega

lemma predDate_valid {d : Date} (h : d.Valid) : (predDate d).Valid := by
  unfold Date.Valid at *
  unfold predDate
  split_ifs with h1 h2
  · dsimp only
    omega
  · dsimp only
    have := daysInMonth_pos d.year (d.month - 1)
    omega
  · dsimp only
    have : daysInMonth (d.year - 1) 12 = 31 := by
      unfold daysInMonth
      norm_num
    omega

lemma predDate_lt {d : Date} (h : d.Valid) : dateLt (predDate d) d := by
  unfold Date.Valid at h
  unfold predDate dateLt
  split_ifs with h1 h2 <;> dsimp only <;> omega

lemma subDays_valid {d : Date} (h : d.Valid) (k : Nat) : (subDays d k).Valid := by
  induction k with
  | zero => exact h
  | succ k ih => exact predDate_valid ih

lemma subDays_le {d : Date} (h : d.Valid) (k : Nat) : dateLe (subDays d k) d := by
  induction k with
  | zero => exact dateLe_refl d
  | succ k ih => exact dateLe_trans (dateLt_le (predDate_lt (subDays_valid h k))) ih

lemma subDays_add (d : Date) (a b : Nat) : subDays d (a + b) = subDays (subDays d a) b := by
  induction b with
  | zero => rfl
  | succ b ih =>
      rw [show subDays d (a + (b + 1)) = predDate (subDays d (a + b)) from rfl, ih]
      rfl

/-- The year-month rank of a date; consecutive calendar months differ by 1. -/
def ymIndex (d : Date) : Int := 12 * d.year + (d.month : Int)

lemma ymIndex_le_of_dateLe {a b : Date} (ha : a.Valid) (hb : b.Valid) (h : dateLe a b) :
    ymIndex a ≤ ymIndex b := by
  unfold Date.Valid at ha hb
  unfold dateLe at h
  unfold ymIndex
  omega

lemma dateLe_of_ymIndex_le {a b : Date} (ha : a.Valid) (hb : b.Valid) (hday : a.day = 1)
    (h : ymIndex a ≤ ymIndex b) : dateLe a b := by
  unfold Date.Valid at ha hb
  unfold ymIndex at h
  unfold dateLe
  omega

lemma nextMonthFirst_valid {d : Date} (h : d.Valid) : (nextMonthFirst d).Valid := by
  unfold Date.Valid at *
  unfold nextMonthFirst
  split_ifs with h1 <;> dsimp only <;>
    exact ⟨by omega, by omega, by omega, daysInMonth_pos _ _⟩

lemma nextMonthFirst_ymIndex {d : Date} (h : d.Valid) :
    ymIndex (nextMonthFirst d) = ymIndex d + 1 := by
  unfold Date.Valid at h
  unfold nextMonthFirst ymIndex
  split_ifs with h1 <;> dsimp only <;> omega

lemma nextMonthFirst_day (d : Date) : (nextMonthFirst d).day = 1 := by
  unfold nextMonthFirst
  split_ifs <;> rfl

lemma predDate_ymIndex {d : Date} (h : d.Valid) :
    ymIndex d - 1 ≤ ymIndex (predDate d) := by
  unfold Date.Valid at h
  unfold predDate ymIndex
  split_ifs <;> dsimp only <;> omega

lemma subDays_ymIndex {d : Date} (h : d.Valid) (k : Nat) :
    ymIndex d - k ≤ ymIndex (subDays d k) := by
  induction k with
  | zero => simp [subDays]
  | succ k ih =>
      have h2 := predDate_ymIndex (subDays_valid h k)
      rw [show subDays d (k + 1) = predDate (subDays d k) from rfl]
      push_cast at *
      omega

/-- Every calendar-valid date between the walk's cursor and its bound has
its month name visited by the ensure loop's walk, given enough fuel. -/
lemma monthWalk_cov : ∀ (fuel : Nat) (c d e : Date), c.Valid → d.Valid → e.Valid →
    dateLe c d → dateLe d e → (ymIndex e - ymIndex c).toNat < fuel →
    monthName d.month ∈ monthWalk c e fuel := by
  intro fuel
  induction fuel with
  | zero =>
      intro c d e hc hd he hcd hde hf
      have h1 := ymIndex_le_of_dateLe hc hd hcd
      have h2 := ymIndex_le_of_dateLe hd he hde
      omega
  | succ fuel ih =>
      intro c d e hc hd he hcd hde hf
      have hce : dateLe c e := dateLe_trans hcd hde
      rw [monthWalk, if_pos hce]
      by_cases hym : ymIndex c = ymIndex d
      · have hm : c.month = d.month := by
          unfold ymIndex at hym
          unfold Date.Valid at hc hd
          omega
        rw [← hm]
        exact List.mem_cons_self _ _
      · have hlt : ymIndex c < ymIndex d :=
          lt_of_le_of_ne (ymIndex_le_of_dateLe hc hd hcd) hym
        have hnv := nextMonthFirst_valid hc
        have hny := nextMonthFirst_ymIndex hc
        have hnd : dateLe (nextMonthFirst c) d :=
          dateLe_of_ymIndex_le hnv hd (nextMonthFirst_day c) (by omega)
        refine List.mem_cons_of_mem _ (ih (nextMonthFirst c) d e hnv hd he hnd hde ?_)
        have hde2 := ymIndex_le_of_dateLe hd he hde
        omega

/-! ### Claim C2: the monthly overview -/

lemma monthFold_find (rs : List AttRecord) (m : List (String × MonthCounts)) (n : String) :
    alFind (rs.foldl monthStep m) n =
      match alFind m n with
      | some c =>
          some ⟨c.present + rs.countP (fun r => monthName r.date.month == n && r.status == .present),
                c.absent + rs.countP (fun r => monthName r.date.month == n && r.status == .absent),
                c.late + rs.countP (fun r => monthName r.date.month == n && r.status == .late)⟩
      | none =>
          if rs.any (fun r => monthName r.date.month == n &&
              (r.status == .present || r.status == .absent || r.status == .late)) then
            some ⟨rs.countP (fun r => monthName r.date.month == n && r.status == .present),
                  rs.countP (fun r => monthName r.date.month == n && r.status == .absent),
                  rs.countP (fun r => monthName r.date.month == n && r.status == .late)⟩
          else none := by
  induction rs generalizing m with
  | nil => cases h : alFind m n <;> simp [h]
  | cons r rs ih =>
      rw [List.foldl_cons, ih]
      clear ih
      cases hst : r.status <;>
      · by_cases hnm : monthName r.date.month = n
        · cases hfm : alFind m n <;>
            simp_all [monthStep, bumpWith, alFind_alSet, List.countP_cons, List.any_cons,
              MonthCounts.zero, MonthCounts.mk.injEq] <;>
            omega
        · cases hfm : alFind m n <;>
            simp_all [monthStep, bumpWith, alFind_alSet, List.countP_cons, List.any_cons]

lemma ensFold_find (names : List String) (m : List (String × MonthCounts)) (n : String) :
    alFind (names.foldl
        (fun m n' => if (alFind m n').isSome then m else m ++ [(n', MonthCounts.zero)]) m) n =
      match alFind m n with
      | some c => some c
      | none => if n ∈ names then some MonthCounts.zero else none := by
  induction names generalizing m with
  | nil => cases h : alFind m n <;> simp [h]
  | cons n' names ih =>
      rw [List.foldl_cons, ih]
      by_cases hs : (alFind m n').isSome
      · rw [if_pos hs]
        cases hfm : alFind m n
        · by_cases hnn : n = n'
          · subst hnn
            rw [hfm] at hs
            simp at hs
          · simp [hfm, List.mem_cons, hnn]
        · simp [hfm]
      · rw [if_neg hs]
        rw [alFind_append_single]
        cases hfm : alFind m n
        · by_cases hnn : n' = n
          · simp [hfm, hnn]
          · have hnn2 : ¬n = n' := fun hh => hnn hh.symm
            rw [if_neg hnn]
            simp [hfm, List.mem_cons, hnn2]
        · simp [hfm]

/-- Lookup in the fully-built monthly bucket map: any month name visited by
the walk resolves to the per-name status counts of the windowed records. -/
lemma overview_find (today : Date) (records : List AttRecord) (n : String)
    (hmem : n ∈ monthWalk (subDays today 180) today 1000) :
    alFind ((monthWalk (subDays today 180) today 1000).foldl
        (fun m n' => if (alFind m n').isSome then m else m ++ [(n', MonthCounts.zero)])
        ((records.filter (fun r => decide (dateLe (subDays today 180) r.date))).foldl
          monthStep [])) n =
      some ⟨(records.filter (fun r => decide (dateLe (subDays today 180) r.date))).countP
              (fun r => monthName r.date.month == n && r.status == .present),
            (records.filter (fun r => decide (dateLe (subDays today 180) r.date))).countP
              (fun r => monthName r.date.month == n && r.status == .absent),
            (records.filter (fun r => decide (dateLe (subDays today 180) r.date))).countP
              (fun r => monthName r.date.month == n && r.status == .late)⟩ := by
  rw [ensFold_find, monthFold_find]
  rw [show alFind ([] : List (String × MonthCounts)) n = none from rfl]
  dsimp only
  by_cases ht : (records.filter (fun r => decide (dateLe (subDays today 180) r.date))).any
      (fun r => monthName r.date.month == n &&
        (r.status == .present || r.status == .absent || r.status == .late)) = true
  · rw [if_pos ht]
  · rw [if_neg ht]
    dsimp only
    rw [if_pos hmem]
    rw [List.any_eq_true] at ht
    push_neg at ht
    have hz : ∀ st : AttStatus, (st = .present ∨ st = .absent ∨ st = .late) →
        (records.filter (fun r => decide (dateLe (subDays today 180) r.date))).countP
          (fun r => monthName r.date.month == n && r.status == st) = 0 := by
      intro st hst3
      rw [List.countP_eq_zero]
      intro r hr hcon
      apply ht r hr
      simp only [Bool.and_eq_true, beq_iff_eq] at hcon
      obtain ⟨h1, h2⟩ := hcon
      simp only [Bool.and_eq_true, Bool.or_eq_true, beq_iff_eq]
      refine ⟨h1, ?_⟩
      rcases hst3 with h3 | h3 | h3 <;> subst h3 <;> simp [h2]
    rw [hz .present (Or.inl rfl), hz .absent (Or.inr (Or.inl rfl)),
      hz .late (Or.inr (Or.inr rfl))]
    rfl

set_option maxRecDepth 100000 in
/-- C2 counterexample: with "today" = 2024-03-31 and no records at all, the
trailing window reaches back to 2023-10-03, so the last six calendar months
are October through March; yet the overview lists January and March twice
each and February — a zero-activity month inside the window — not at all,
because the six samples step back 30 days at a time instead of one
calendar month. -/
theorem claim_C2_cex :
    subDays ⟨2024, 3, 31⟩ 180 = ⟨2023, 10, 3⟩ ∧
    (monthlyOverview ⟨2024, 3, 31⟩ []).map (fun e => e.month) =
      ["November", "December", "January", "January", "March", "March"] ∧
    "February" ∉ (monthlyOverview ⟨2024, 3, 31⟩ []).map (fun e => e.month) := by
  refine ⟨by decide, by decide, by decide⟩

/-- C2 amended: the monthly overview always has exactly six entries, one for
each sample date `today - 30*i` days (i = 5..0, oldest sample first); each
entry carries the month name of its sample date together with the
present/absent/late counts of the records dated on or after
`today - 180` days whose month name matches.  Because the samples step 30
days rather than one calendar month, a month name can repeat and a calendar
month inside the window can be skipped, so the six entries need not be the
last six calendar months. -/
theorem claim_C2_amended (today : Date) (h : today.Valid) (records : List AttRecord) :
    monthlyOverview today records =
      ((List.range 6).reverse).map (fun i =>
        { month := monthName (subDays today (30 * i)).month,
          present := records.countP (fun r =>
            (monthName r.date.month == monthName (subDays today (30 * i)).month &&
              r.status == .present) && decide (dateLe (subDays today 180) r.date)),
          absent := records.countP (fun r =>
            (monthName r.date.month == monthName (subDays today (30 * i)).month &&
              r.status == .absent) && decide (dateLe (subDays today 180) r.date)),
          late := records.countP (fun r =>
            (monthName r.date.month == monthName (subDays today (30 * i)).month &&
              r.status == .late) && decide (dateLe (subDays today 180) r.date)) }) := by
  have hmw : ∀ i : Nat, i ≤ 5 →
      monthName (subDays today (30 * i)).month ∈ monthWalk (subDays today 180) today 1000 := by
    intro i hi
    have hvt := subDays_valid h (30 * i)
    have hvs := subDays_valid h 180
    refine monthWalk_cov 1000 (subDays today 180) (subDays today (30 * i)) today hvs hvt h
      ?_ ?_ ?_
    · have h180 : (180 : Nat) = 30 * i + (180 - 30 * i) := by omega
      rw [h180, subDays_add]
      exact subDays_le hvt (180 - 30 * i)
    · exact subDays_le h (30 * i)
    · have h1 := subDays_ymIndex h 180
      have h2 := ymIndex_le_of_dateLe hvs h (subDays_le h 180)
      omega
  have hcp : ∀ p : AttRecord → Bool,
      (records.filter (fun r => decide (dateLe (subDays today 180) r.date))).countP p =
        records.countP (fun r => p r && decide (dateLe (subDays today 180) r.date)) :=
    fun p => List.countP_filter p _ records
  have e0 := overview_find today records _ (hmw 0 (by omega))
  have e1 := overview_find today records _ (hmw 1 (by omega))
  have e2 := overview_find today records _ (hmw 2 (by omega))
  have e3 := overview_find today records _ (hmw 3 (by omega))
  have e4 := overview_find today records _ (hmw 4 (by omega))
  have e5 := overview_find today records _ (hmw 5 (by omega))
  simp only [hcp] at e0 e1 e2 e3 e4 e5
  simp only [monthlyOverview]
  rw [show List.range 6 = [0, 1, 2, 3, 4, 5] from rfl]
  simp only [List.foldl_cons, List.foldl_nil, e0, e1, e2, e3, e4, e5]
  rfl

/-- Witness for the amended C2 theorem at today = 2024-03-31 with no
records. -/
theorem claim_C2_amended_witness :
    (⟨2024, 3, 31⟩ : Date).Valid ∧
    monthlyOverview ⟨2024, 3, 31⟩ [] =
      ((List.range 6).reverse).map (fun i =>
        { month := monthName (subDays (⟨2024, 3, 31⟩ : Date) (30 * i)).month,
          present := ([] : List AttRecord).countP (fun r =>
            (monthName r.date.month ==
                monthName (subDays (⟨2024, 3, 31⟩ : Date) (30 * i)).month &&
              r.status == .present) &&
            decide (dateLe (subDays (⟨2024, 3, 31⟩ : Date) 180) r.date)),
          absent := ([] : List AttRecord).countP (fun r =>
            (monthName r.date.month ==
                monthName (subDays (⟨2024, 3, 31⟩ : Date) (30 * i)).month &&
              r.status == .absent) &&
            decide (dateLe (subDays (⟨2024, 3, 31⟩ : Date) 180) r.date)),
          late := ([] : List AttRecord).countP (fun r =>
            (monthName r.date.month ==
                monthName (subDays (⟨2024, 3, 31⟩ : Date) (30 * i)).month &&
              r.status == .late) &&
            decide (dateLe (subDays (⟨2024, 3, 31⟩ : Date) 180) r.date)) }) :=
  ⟨by decide, claim_C2_amended ⟨2024, 3, 31⟩ (by decide) []⟩

end EmployeeProject
